/-
Verification of the lifecycle reconciliation core (CodethinkLabs/lifecycle).

Shallow embedding of:
  * lifecycle/models.py      — Group, User, name normalisation in __post_init__
  * lifecycle/model_diff.py  — ModelDifferenceConfig, ModelDifference
  * lifecycle/__init__.py    — TargetBase.process_stages stage orchestration

Modelling conventions:
  * Python `str` is Lean `String`; character-level operations go through
    `String.toList`.
  * Python tuples/lists of strings or groups are Lean `List`s (insertion
    order preserved, as in the source).
  * Python `dict[str, User]` is an association list `List (String × User)`
    with pairwise-distinct keys (a dict invariant); dict lookup is
    first-match lookup, dict-comprehension key collision is last-wins and
    is modelled by looking up in the reversed list.
  * A compiled regex (`re.Pattern`) is modelled extensionally as the
    predicate `String → Bool` that `re.fullmatch` computes; concrete
    patterns used in examples are given their exact fullmatch semantics.
  * `ModelDifference.calculate` mutates the caller's `source_users` dict in
    place (the group filtering loop).  It is embedded in state-passing
    style: it returns the post-call contents of the two caller dicts
    together with the returned `ModelDifference`.
-/
import Mathlib

namespace Lifecycle

/-- `models.Group`: a dataclass with fields `name`, `description`, `email`.
`email` is normalised to a tuple in `__post_init__`; dataclass equality
compares all three fields, with `email` compared as an ordered tuple. -/
structure Group where
  name : String
  description : String
  email : List String
deriving Repr, DecidableEq

/-- `models.User`: a dataclass with the seven fields below.
Name normalisation from `__post_init__` is applied by `User.make`. -/
structure User where
  username : String
  forename : String
  surname : String
  fullname : String
  email : List String
  groups : List Group
  locked : Bool
deriving Repr, DecidableEq

/-- `Group.supported_fields()`: the names of all `Group` dataclass fields. -/
def groupSupportedFields : List String := ["name", "description", "email"]

/-- `User.supported_fields()`: the names of all `User` dataclass fields. -/
def userSupportedFields : List String :=
  ["username", "forename", "surname", "fullname", "email", "groups", "locked"]

/-- Python `s.split(" ", maxsplit=1)` on the character list of `s`:
the part before the first space, and — when a space exists — the remainder
after that single space, verbatim. -/
def splitFirstSpace : List Char → List Char × Option (List Char)
  | [] => ([], none)
  | c :: cs =>
    if c = ' ' then ([], some cs)
    else
      let r := splitFirstSpace cs
      (c :: r.1, r.2)

/-- `fullname.split(" ", maxsplit=1)[0]` -/
def firstSplitPart (s : String) : String :=
  String.mk (splitFirstSpace s.toList).1

/-- `fullname.split(" ", maxsplit=1)[-1]`: the last element of the split
list; this is the remainder after the first space when a space exists, and
the whole string otherwise. -/
def lastSplitPart (s : String) : String :=
  match splitFirstSpace s.toList with
  | (first, none) => String.mk first
  | (_, some rest) => String.mk rest

/-- Python `" ".join(parts)`. -/
def joinWithSpace : List String → String
  | [] => ""
  | [s] => s
  | s :: rest => s ++ " " ++ joinWithSpace rest

/-- `User.__post_init__`: derive missing name fields.
`if self.fullname:` is Python truthiness on strings (non-empty). -/
def User.postInit (u : User) : User :=
  if u.fullname ≠ "" then
    let u := if u.forename = "" then { u with forename := firstSplitPart u.fullname } else u
    let u := if u.surname = "" then { u with surname := lastSplitPart u.fullname } else u
    u
  else
    { u with
      fullname := joinWithSpace
        ((if u.forename ≠ "" then [u.forename] else []) ++
         (if u.surname ≠ "" then [u.surname] else [])) }

/-- Constructing a `User(...)` runs the dataclass constructor followed by
`__post_init__`.  Arguments are positional; a Python call that omits an
optional argument passes that argument's dataclass default here. -/
def User.make (username forename surname fullname : String) (email : List String)
    (groups : List Group) (locked : Bool) : User :=
  User.postInit ⟨username, forename, surname, fullname, email, groups, locked⟩

/-! ### model_diff.py: configuration -/

/-- A compiled regex, modelled extensionally: `p name` is the truth value of
`re.fullmatch(p, name)`. -/
def Pattern : Type := String → Bool

/-- `model_diff.ModelDifferenceConfig`.  `group_fields` defaults to
`Group.supported_fields()`. -/
structure ModelDifferenceConfig where
  fields : List String
  groups_patterns : List Pattern
  group_fields : List String

/-- The raw mapping handed to `ModelDifferenceConfig.from_dict`: a mandatory
`fields` entry and optional `groups_patterns` / `group_fields` entries. -/
structure RawConfig where
  fields : List String
  groups_patterns : Option (List String)
  group_fields : Option (List String)

/-- The errors `from_dict` can raise: `InvalidUserField`, `InvalidGroupField`
(each carrying the offending field name) and `InvalidRegex` (carrying the
message and the offending pattern). -/
inductive ConfigError where
  | invalidUserField (field : String)
  | invalidGroupField (field : String)
  | invalidRegex (message pattern : String)
deriving Repr, DecidableEq

/-- `[re.compile(pattern) for pattern in patterns]` with the surrounding
`try`/`except re.error`: the first pattern that fails to compile raises
`InvalidRegex`.  The compiler itself (`re.compile`) is external to the
repository and passed in abstractly. -/
def compilePatterns (compile : String → Except String Pattern) :
    List String → Except ConfigError (List Pattern)
  | [] => .ok []
  | p :: ps =>
    match compile p with
    | .error msg => .error (.invalidRegex msg p)
    | .ok f =>
      match compilePatterns compile ps with
      | .error e => .error e
      | .ok fs => .ok (f :: fs)

/-- `ModelDifferenceConfig.from_dict`.  Validation order follows the source:
the `fields` loop raises `InvalidUserField` first; then, when `group_fields`
is truthy (present and non-empty), its entries can raise `InvalidGroupField`;
patterns are compiled only when `"groups"` is among the fields, defaulting to
the single catch-all `".*"` when the `groups_patterns` key is absent. -/
def ModelDifferenceConfig.from_dict (compile : String → Except String Pattern)
    (d : RawConfig) : Except ConfigError ModelDifferenceConfig :=
  match d.fields.find? (fun f => !(userSupportedFields.contains f)) with
  | some f => .error (.invalidUserField f)
  | none =>
    let gfBad : Option String :=
      match d.group_fields with
      | some l => l.find? (fun f => !(groupSupportedFields.contains f))
      | none => none
    match gfBad with
    | some f => .error (.invalidGroupField f)
    | none =>
      let patStrs : List String :=
        if d.fields.contains "groups" then d.groups_patterns.getD [".*"] else []
      match compilePatterns compile patStrs with
      | .error e => .error e
      | .ok pats =>
        match d.group_fields with
        | some l =>
          if l.isEmpty then .ok ⟨d.fields, pats, groupSupportedFields⟩
          else .ok ⟨d.fields, pats, l⟩
        | none => .ok ⟨d.fields, pats, groupSupportedFields⟩

/-! ### model_diff.py: the diff engine -/

/-- The value of a `User`/`Group` attribute, as handled generically through
`getattr`/`setattr` in the source. -/
inductive FieldVal where
  | str (s : String)
  | strList (l : List String)
  | groupList (l : List Group)
  | bool (b : Bool)
deriving Repr, DecidableEq

/-- `getattr(user, field)` for the supported `User` fields; `none` models the
`AttributeError` an unknown name would raise (configs are validated). -/
def User.getField (u : User) (f : String) : Option FieldVal :=
  if f = "username" then some (.str u.username)
  else if f = "forename" then some (.str u.forename)
  else if f = "surname" then some (.str u.surname)
  else if f = "fullname" then some (.str u.fullname)
  else if f = "email" then some (.strList u.email)
  else if f = "groups" then some (.groupList u.groups)
  else if f = "locked" then some (.bool u.locked)
  else none

/-- `setattr(user, field, value)` (a plain attribute write: `__post_init__`
is not re-run).  A name/value shape mismatch leaves the user unchanged; in
the merge flow the value was read from the same field of another `User`, so
the shapes always agree. -/
def User.setField (u : User) (f : String) (v : FieldVal) : User :=
  if f = "username" then match v with | .str s => { u with username := s } | _ => u
  else if f = "forename" then match v with | .str s => { u with forename := s } | _ => u
  else if f = "surname" then match v with | .str s => { u with surname := s } | _ => u
  else if f = "fullname" then match v with | .str s => { u with fullname := s } | _ => u
  else if f = "email" then match v with | .strList l => { u with email := l } | _ => u
  else if f = "groups" then match v with | .groupList l => { u with groups := l } | _ => u
  else if f = "locked" then match v with | .bool b => { u with locked := b } | _ => u
  else u

/-- `getattr(group, field)` for the supported `Group` fields. -/
def Group.getField (g : Group) (f : String) : Option FieldVal :=
  if f = "name" then some (.str g.name)
  else if f = "description" then some (.str g.description)
  else if f = "email" then some (.strList g.email)
  else none

/-- `sorted` on a Python string: the sorted list of its characters
(code-point order, as in Python).  With a total order the sorted list is
algorithm-independent, so insertion sort models Python's sort faithfully. -/
def sortChars (s : String) : List Char :=
  List.insertionSort (fun a b => a ≤ b) s.toList

/-- `sorted` on a tuple of strings (lexicographic order, as in Python). -/
def sortStrings (l : List String) : List String :=
  List.insertionSort (fun a b => a ≤ b) l

/-- Lexicographic comparison of string lists, as Python compares tuples of
strings. -/
def listStrLe : List String → List String → Bool
  | [], _ => true
  | _ :: _, [] => false
  | a :: as, b :: bs =>
    if a < b then true else if b < a then false else listStrLe as bs

/-- Python's `order=True` dataclass ordering on `Group`: lexicographic on the
`(name, description, email)` tuple. -/
def groupLe (g h : Group) : Bool :=
  if g.name < h.name then true
  else if h.name < g.name then false
  else if g.description < h.description then true
  else if h.description < g.description then false
  else listStrLe g.email h.email

/-- `sorted` on a tuple of Groups. -/
def sortGroups (l : List Group) : List Group :=
  List.insertionSort (fun a b => groupLe a b = true) l

/-- `ModelDifference._values_differ`: any `Iterable` value — strings
included — is sorted on both sides before comparison; non-iterable values
(booleans) are compared directly.  The two values always come from the same
attribute, so they have the same shape; a shape mismatch is unreachable. -/
def valuesDiffer : FieldVal → FieldVal → Bool
  | .str a, .str b => decide (sortChars a ≠ sortChars b)
  | .strList a, .strList b => decide (sortStrings a ≠ sortStrings b)
  | .groupList a, .groupList b => decide (sortGroups a ≠ sortGroups b)
  | .bool a, .bool b => decide (a ≠ b)
  | _, _ => true

/-- `ModelDifference._groups_differ`.  `target_by_name` is a dict
comprehension, so a duplicated name keeps the last group carrying it; lookup
in the reversed association list models that. -/
def groupsDiffer (source_groups target_groups : List Group)
    (config : ModelDifferenceConfig) : Bool :=
  if source_groups.length ≠ target_groups.length then true
  else
    let target_by_name := (target_groups.map fun g => (g.name, g)).reverse
    source_groups.any fun sg =>
      match target_by_name.lookup sg.name with
      | none => true
      | some tg =>
        config.group_fields.any fun field =>
          match sg.getField field, tg.getField field with
          | some a, some b => valuesDiffer a b
          | _, _ => false

/-- `ModelDifference._users_differ`: field-by-field over `config.fields`,
with `"groups"` dispatched to `groupsDiffer`. -/
def usersDiffer (source_user target_user : User)
    (config : ModelDifferenceConfig) : Bool :=
  config.fields.any fun field =>
    if field = "groups" then
      groupsDiffer source_user.groups target_user.groups config
    else
      match source_user.getField field, target_user.getField field with
      | some a, some b => valuesDiffer a b
      | _, _ => false

/-- `ModelDifference._merge_users`: start from a (deep) copy of the target
user and overwrite every configured field with the source's value. -/
def mergeUsers (source_user target_user : User)
    (config : ModelDifferenceConfig) : User :=
  config.fields.foldl
    (fun merged field =>
      match source_user.getField field with
      | some v => merged.setField field v
      | none => merged)
    target_user

/-- `ModelDifference._list_group_matches`: the tuple of the user's groups
whose name fully matches at least one configured pattern, in order. -/
def listGroupMatches (user : User) (config : ModelDifferenceConfig) : List Group :=
  user.groups.filter fun g => config.groups_patterns.any fun p => p g.name

/-- The result type: `model_diff.ModelDifference`. -/
structure ModelDifference where
  source_users : List (String × User)
  target_users : List (String × User)
  added_users : List (String × User)
  removed_users : List (String × User)
  changed_users : List (String × User)
  unchanged_users : List (String × User)
deriving Repr, DecidableEq

/-- The group-filtering loop at the top of `ModelDifference.calculate`:
`user.groups = ModelDifference._list_group_matches(user, config)` for every
user of the dict, executed only when `config.groups_patterns` is truthy. -/
def filterSourceGroups (config : ModelDifferenceConfig)
    (users : List (String × User)) : List (String × User) :=
  if config.groups_patterns.isEmpty then users
  else users.map fun kv => (kv.1, { kv.2 with groups := listGroupMatches kv.2 config })

/-- The body of `ModelDifference.calculate` after the filtering loop: the
four partitions, built from the (already filtered) source dict and the
target dict. -/
def calcPartition (source_users target_users : List (String × User))
    (config : ModelDifferenceConfig) : ModelDifference :=
  let added_users := source_users.filter fun kv => (target_users.lookup kv.1).isNone
  let removed_users := target_users.filter fun kv => (source_users.lookup kv.1).isNone
  let changed_users := source_users.filterMap fun kv =>
    match target_users.lookup kv.1 with
    | some target_user =>
      if usersDiffer kv.2 target_user config then
        some (kv.1, mergeUsers kv.2 target_user config)
      else none
    | none => none
  let unchanged_users := source_users.filterMap fun kv =>
    match target_users.lookup kv.1 with
    | some target_user =>
      if usersDiffer kv.2 target_user config then none else some (kv.1, kv.2)
    | none => none
  ⟨source_users, target_users, added_users, removed_users, changed_users,
    unchanged_users⟩

/-- `ModelDifference.calculate(source_users, target_users, config)` in
state-passing style for two distinct caller dicts: the first component is
the post-call contents of the caller's `(source_users, target_users)` dicts
(the source dict is mutated in place by the filtering loop), the second the
returned `ModelDifference`. -/
def ModelDifference.calculate (source_users target_users : List (String × User))
    (config : ModelDifferenceConfig) :
    (List (String × User) × List (String × User)) × ModelDifference :=
  let src := filterSourceGroups config source_users
  ((src, target_users), calcPartition src target_users config)

/-- `ModelDifference.calculate(d, d, config)` where both arguments alias one
dict object: the in-place filtering loop is visible through both the source
and the target views.  First component: the post-call contents of the dict. -/
def ModelDifference.calculateAliased (users : List (String × User))
    (config : ModelDifferenceConfig) :
    List (String × User) × ModelDifference :=
  let src := filterSourceGroups config users
  (src, calcPartition src src config)

/-! ### __init__.py: stage orchestration (`TargetBase.process_stages`) -/

/-- The observable outcome of calling one stage method on a target:
it returns, raises `NotImplementedError`, or raises some other exception. -/
inductive StageResult where
  | ok
  | notImplemented
  | raised (message : String)
deriving Repr, DecidableEq

/-- A target, as seen by `process_stages`: its class name (used in log
messages), its configured `config["stages"]` list, and the behaviour of its
three stage methods as a function of the stage name and the difference they
are passed. -/
structure Target where
  className : String
  stages : List String
  run : String → ModelDifference → StageResult

/-- The externally observable events of one `process_stages` call. -/
inductive Event where
  | noStagesWarning (className : String)
  | diffCalculated (difference : ModelDifference)
  | invoked (stage : String) (difference : ModelDifference)
  | notImplementedWarning (stage className : String)
deriving Repr

/-- The fixed iteration order of the `for stage in (...)` loop. -/
def canonicalStages : List String := ["users_create", "users_cleanup", "users_sync"]

/-- The stage loop of `process_stages`: for each remaining canonical stage
that is in the configured list, call the method; `NotImplementedError` is
caught, logged as a warning naming the method and the class, and the loop
continues; any other exception propagates and aborts the loop.  Returns the
event log and the uncaught exception, if any. -/
def runStagesFrom (t : Target) (difference : ModelDifference) :
    List String → List Event × Option String
  | [] => ([], none)
  | stage :: rest =>
    if t.stages.contains stage then
      match t.run stage difference with
      | .ok =>
        let r := runStagesFrom t difference rest
        (.invoked stage difference :: r.1, r.2)
      | .notImplemented =>
        let r := runStagesFrom t difference rest
        (.invoked stage difference :: .notImplementedWarning stage t.className :: r.1, r.2)
      | .raised msg => ([.invoked stage difference], some msg)
    else runStagesFrom t difference rest

/-- `TargetBase.process_stages`: with an empty configured stage list, warn
and return without computing a difference; otherwise compute the difference
once (`calculate_difference`, abstracted as a thunk) and run the stage loop
over the canonical order. -/
def process_stages (t : Target) (calcDifference : Unit → ModelDifference) :
    List Event × Option String :=
  if t.stages.isEmpty then ([.noStagesWarning t.className], none)
  else
    let difference := calcDifference ()
    let r := runStagesFrom t difference canonicalStages
    (.diffCalculated difference :: r.1, r.2)

/-- The stages invoked in a log, in order. -/
def invokedStages (log : List Event) : List String :=
  log.filterMap fun e =>
    match e with
    | .invoked stage _ => some stage
    | _ => none

/-- The `(stage, className)` pairs of the "not implemented" warnings in a
log, in order. -/
def notImplWarnings (log : List Event) : List (String × String) :=
  log.filterMap fun e =>
    match e with
    | .notImplementedWarning stage cls => some (stage, cls)
    | _ => none

/-! ### Concrete `re.fullmatch` predicates used in examples -/

/-- `re.fullmatch` semantics of the pattern string `"^division.*"`:
the name starts with `division` and the rest contains no newline
(`.` does not match a newline). -/
def divisionPattern : Pattern := fun s =>
  "division".toList.isPrefixOf s.toList && !((s.toList.drop 8).contains '\n')

/-- `re.fullmatch` semantics of the default catch-all pattern string `".*"`:
any name without a newline. -/
def dotStarPattern : Pattern := fun s => !(s.toList.contains '\n')

/-- A regex compiler stub for examples whose compilation must succeed; the
compiled predicates are never consulted by the facts proved with it. -/
def stubCompile : String → Except String Pattern := fun _ => .ok dotStarPattern

/-! ### Helper lemmas -/

theorem splitFirstSpace_eq (l : List Char) :
    splitFirstSpace l =
      (l.takeWhile (fun c => c ≠ ' '),
       if ' ' ∈ l then some ((l.dropWhile (fun c => c ≠ ' ')).drop 1) else none) := by
  induction l with
  | nil => simp [splitFirstSpace]
  | cons c cs ih =>
    by_cases hc : c = ' '
    · subst hc
      simp [splitFirstSpace]
    · have hc2 : ¬ (' ' = c) := fun h => hc h.symm
      simp [splitFirstSpace, hc, hc2, ih]

theorem insertionSortLe_eq_iff_perm {α : Type} [LinearOrder α] (l₁ l₂ : List α) :
    List.insertionSort (fun a b => a ≤ b) l₁ = List.insertionSort (fun a b => a ≤ b) l₂ ↔
      l₁.Perm l₂ := by
  constructor
  · intro h
    exact ((List.perm_insertionSort (fun a b => a ≤ b) l₁).symm.trans (h ▸
      List.perm_insertionSort (fun a b => a ≤ b) l₂))
  · intro h
    exact List.eq_of_perm_of_sorted
      ((List.perm_insertionSort _ l₁).trans (h.trans (List.perm_insertionSort _ l₂).symm))
      (List.sorted_insertionSort _ l₁) (List.sorted_insertionSort _ l₂)

theorem sortChars_eq_iff_perm (s t : String) :
    (sortChars s = sortChars t) ↔ s.toList.Perm t.toList :=
  insertionSortLe_eq_iff_perm s.toList t.toList

theorem sortStrings_eq_iff_perm (a b : List String) :
    (sortStrings a = sortStrings b) ↔ a.Perm b :=
  insertionSortLe_eq_iff_perm a b

theorem valuesDiffer_self (v : FieldVal) : valuesDiffer v v = false := by
  cases v <;> simp [valuesDiffer]

theorem getField_congr_none {w u : User} {f : String} (h : w.getField f = none) :
    u.getField f = none := by
  unfold User.getField at h ⊢
  split_ifs at h ⊢
  simp_all

theorem getField_setField_self {w : User} (u : User) {f : String} {v : FieldVal}
    (h : w.getField f = some v) : (u.setField f v).getField f = some v := by
  unfold User.getField at h ⊢
  unfold User.setField
  split_ifs at h ⊢ <;> cases v <;> simp_all

theorem getField_setField_ne (u : User) {f g : String} (v : FieldVal) (h : f ≠ g) :
    (u.setField g v).getField f = u.getField f := by
  unfold User.setField
  split_ifs with h1 h2 h3 h4 h5 h6 h7 <;> cases v <;> simp_all [User.getField]

theorem mergeUsers_getField (s t : User) (cfg : ModelDifferenceConfig) (f : String) :
    (mergeUsers s t cfg).getField f =
      if f ∈ cfg.fields then s.getField f else t.getField f := by
  unfold mergeUsers
  have main : ∀ (l : List String) (acc : User),
      (l.foldl
        (fun merged field =>
          match s.getField field with
          | some v => merged.setField field v
          | none => merged) acc).getField f =
        if f ∈ l then s.getField f else acc.getField f := by
    intro l
    induction l with
    | nil => intro acc; simp
    | cons g rest ih =>
      intro acc
      simp only [List.foldl_cons, ih]
      by_cases hrest : f ∈ rest
      · simp [hrest]
      · by_cases hfg : f = g
        · subst hfg
          cases hsv : s.getField f with
          | some v => simp [hrest, getField_setField_self (h := hsv), hsv]
          | none => simp [hrest, getField_congr_none hsv, hsv]
        · have : f ∉ (g :: rest) := by
            simp [List.mem_cons, hfg, hrest]
          simp only [this, if_neg, hrest, if_neg (fun hc => this hc)]
          cases hsv : s.getField g with
          | some v => simp [getField_setField_ne acc v hfg, this]
          | none => simp [this]
  exact main cfg.fields t

theorem mem_changed_users {src tgt : List (String × User)}
    {cfg : ModelDifferenceConfig} {k : String} {m : User} :
    (k, m) ∈ (calcPartition src tgt cfg).changed_users ↔
      ∃ su, (k, su) ∈ src ∧ ∃ tu, tgt.lookup k = some tu ∧
        usersDiffer su tu cfg = true ∧ m = mergeUsers su tu cfg := by
  unfold calcPartition
  simp only [List.mem_filterMap]
  constructor
  · rintro ⟨⟨k2, su⟩, hmem, hf⟩
    cases hlk : tgt.lookup k2 with
    | none => rw [hlk] at hf; simp at hf
    | some tu =>
      rw [hlk] at hf
      by_cases hd : usersDiffer su tu cfg
      · simp only [hd, if_true, Option.some_inj, Prod.mk.injEq] at hf
        obtain ⟨hk, hm2⟩ := hf
        subst hk
        exact ⟨su, hmem, tu, hlk, hd, hm2.symm⟩
      · simp [hd] at hf
  · rintro ⟨su, hmem, tu, hlk, hd, hm2⟩
    refine ⟨(k, su), hmem, ?_⟩
    rw [hlk]
    simp [hd, hm2]

/-! ### Claim C3: field comparison -/

/-- Source collection for the C3 example: one user whose forename is
`"ab"`. -/
def permutedNameSource : List (String × User) :=
  [("u", User.make "u" "ab" "" "" [] [] false)]

/-- Target collection for the C3 example: the same user, forename `"ba"`. -/
def permutedNameTarget : List (String × User) :=
  [("u", User.make "u" "ba" "" "" [] [] false)]

/-- Config comparing only the forename. -/
def forenameOnlyConfig : ModelDifferenceConfig :=
  ⟨["forename"], [], groupSupportedFields⟩

/-- Claim C3, counterexample: the claim asserts that two distinct string
values that are permutations of each other's characters make the user
changed; `_values_differ` sorts every Iterable — Python strings included —
so forenames `"ab"` and `"ba"` compare equal and the user is classified
unchanged. -/
theorem permuted_string_compares_equal_counterexample :
    (ModelDifference.calculate permutedNameSource permutedNameTarget
        forenameOnlyConfig).2.changed_users = [] ∧
    (ModelDifference.calculate permutedNameSource permutedNameTarget
        forenameOnlyConfig).2.unchanged_users.map Prod.fst = ["u"] ∧
    ("ab" : String) ≠ "ba" := by
  decide

/-- Claim C3 (amended): for a compared field other than `groups`, comparison
is order-insensitive for every iterable value — the unordered-collection
field `email`, but also every string field, whose characters are sorted — so
permuted strings do not mark a user changed; only non-iterable values such
as the boolean `locked` are compared directly. -/
theorem field_comparison_sorts_iterables (u v : User) (pats : List Pattern)
    (gf : List String) :
    (usersDiffer u v ⟨["email"], pats, gf⟩ = false ↔ u.email.Perm v.email) ∧
    (usersDiffer u v ⟨["forename"], pats, gf⟩ = false ↔
      u.forename.toList.Perm v.forename.toList) ∧
    (usersDiffer u v ⟨["username"], pats, gf⟩ = false ↔
      u.username.toList.Perm v.username.toList) ∧
    (usersDiffer u v ⟨["surname"], pats, gf⟩ = false ↔
      u.surname.toList.Perm v.surname.toList) ∧
    (usersDiffer u v ⟨["fullname"], pats, gf⟩ = false ↔
      u.fullname.toList.Perm v.fullname.toList) ∧
    (usersDiffer u v ⟨["locked"], pats, gf⟩ = false ↔ u.locked = v.locked) := by
  simp [usersDiffer, User.getField, valuesDiffer, sortStrings_eq_iff_perm,
    sortChars_eq_iff_perm]

/-! ### Claim C5: Group equality -/

/-- Claim C5, counterexample: the claim asserts that two Groups with the
same name and description whose email sequences are permutations of each
other are equal; dataclass equality compares the email tuples in order, so
these two groups are not equal. -/
theorem group_eq_counterexample :
    ¬ (Group.mk "g" "" ["a", "b"] = Group.mk "g" "" ["b", "a"]) := by
  decide

/-- Claim C5 (amended): two Groups are equal iff all their fields are equal,
with the `email` field compared as an ordered sequence — permuting `email`
yields an unequal (not an equal) Group.  Order-insensitive email comparison
happens only in the diff engine's `_values_differ`, not in `Group` equality. -/
theorem group_eq_iff_fields_eq (g h : Group) :
    (g = h ↔ g.name = h.name ∧ g.description = h.description ∧ g.email = h.email) ∧
    (valuesDiffer (.strList g.email) (.strList h.email) = false ↔
      g.email.Perm h.email) := by
  constructor
  · cases g
    cases h
    simp
  · simp [valuesDiffer, sortStrings_eq_iff_perm]

/-! ### Claim C6: User name normalisation -/

/-- Specification of the first space-delimited token of a full name. -/
def firstNameToken (f : String) : String :=
  String.mk (f.toList.takeWhile (fun c => c ≠ ' '))

/-- Specification of the remainder of a full name after its first token:
everything after the first space when a space exists, the whole name
otherwise. -/
def restAfterFirstSpace (f : String) : String :=
  if ' ' ∈ f.toList then String.mk ((f.toList.dropWhile (fun c => c ≠ ' ')).drop 1)
  else f

/-- Specification of the assembled full name: the non-empty components
joined with a single space. -/
def joinNonEmptyNames (forename surname : String) : String :=
  if forename = "" then surname
  else if surname = "" then forename
  else forename ++ " " ++ surname

/-- Claim C6, counterexample: the claim asserts that a single-token fullname
yields an empty surname; the code sets the surname of `User("u",
fullname="Ana")` to the whole token `"Ana"` (the `[-1]` of a one-element
split), not `""`. -/
theorem single_token_fullname_counterexample :
    (User.make "u" "" "" "Ana" [] [] false).surname = "Ana" ∧
    (User.make "u" "" "" "Ana" [] [] false).surname ≠ "" := by
  decide

theorem firstSplitPart_spec (f : String) : firstSplitPart f = firstNameToken f := by
  unfold firstSplitPart firstNameToken
  rw [splitFirstSpace_eq]

theorem lastSplitPart_spec (f : String) : lastSplitPart f = restAfterFirstSpace f := by
  unfold lastSplitPart restAfterFirstSpace
  rw [splitFirstSpace_eq]
  by_cases hsp : ' ' ∈ f.toList
  · rw [if_pos hsp, if_pos hsp]
  · rw [if_neg hsp, if_neg hsp]
    have htake : f.toList.takeWhile (fun c => c ≠ ' ') = f.toList := by
      apply List.takeWhile_eq_self_iff.mpr
      intro c hc
      simp only [decide_eq_true_eq]
      intro hcsp
      exact hsp (hcsp ▸ hc)
    rw [htake]
    rfl

/-- Claim C6 (amended): construction with a non-empty fullname sets an
absent forename to the first space-delimited token and an absent surname to
the remainder after the first space when the fullname contains a space, and
to the whole fullname otherwise (a single-token fullname yields surname
equal to the fullname, not empty); with an absent fullname, the non-empty
forename and surname are joined with a single space; supplying all three
leaves all three unchanged. -/
theorem user_make_name_normalisation (un fn sn f : String) (em : List String)
    (gs : List Group) (lk : Bool) :
    User.make un fn sn f em gs lk =
      if f = "" then ⟨un, fn, sn, joinNonEmptyNames fn sn, em, gs, lk⟩
      else
        ⟨un, if fn = "" then firstNameToken f else fn,
         if sn = "" then restAfterFirstSpace f else sn, f, em, gs, lk⟩ := by
  by_cases hf : f = "" <;>
    by_cases hfn : fn = "" <;> by_cases hsn : sn = "" <;>
      simp [User.make, User.postInit, hf, hfn, hsn, joinNonEmptyNames, joinWithSpace,
        firstSplitPart_spec, lastSplitPart_spec]

/-! ### Claim C4: merge correctness -/

/-- Claim C4: for every changed identity, every field named in
`config.fields` of the merged record equals the (filtered) source record's
value and every other field equals the target record's value; the target
collection referenced by the result is the caller's, unmodified. -/
theorem changed_user_merge_fields (src tgt : List (String × User))
    (cfg : ModelDifferenceConfig) (k : String) (m : User)
    (_hfields : ∀ f ∈ cfg.fields, f ∈ userSupportedFields)
    (hm : (k, m) ∈ (ModelDifference.calculate src tgt cfg).2.changed_users) :
    (ModelDifference.calculate src tgt cfg).2.target_users = tgt ∧
    ∃ su tu, (k, su) ∈ (ModelDifference.calculate src tgt cfg).2.source_users ∧
      tgt.lookup k = some tu ∧
      ∀ f : String, m.getField f =
        if f ∈ cfg.fields then su.getField f else tu.getField f := by
  refine ⟨rfl, ?_⟩
  obtain ⟨su, hsu, tu, hlk, hd, hmm⟩ := mem_changed_users.mp hm
  exact ⟨su, tu, hsu, hlk, fun f => by rw [hmm, mergeUsers_getField]⟩

/-- Source collection for the C4 witness. -/
def mergeWitnessSource : List (String × User) :=
  [("w", User.make "w" "S" "" "" [] [] false)]

/-- Target collection for the C4 witness. -/
def mergeWitnessTarget : List (String × User) :=
  [("w", User.make "w" "T" "" "TT" [] [] false)]

/-- Config comparing only `forename` for the C4 witness. -/
def mergeWitnessConfig : ModelDifferenceConfig :=
  ⟨["forename"], [], groupSupportedFields⟩

/-- Witness for C4 at a concrete changed identity. -/
theorem changed_user_merge_fields_witness :
    (ModelDifference.calculate mergeWitnessSource mergeWitnessTarget
        mergeWitnessConfig).2.target_users = mergeWitnessTarget ∧
    ∃ su tu,
      ("w", su) ∈ (ModelDifference.calculate mergeWitnessSource mergeWitnessTarget
        mergeWitnessConfig).2.source_users ∧
      mergeWitnessTarget.lookup "w" = some tu ∧
      ∀ f : String, (User.mk "w" "S" "TT" "TT" [] [] false).getField f =
        if f ∈ mergeWitnessConfig.fields then su.getField f else tu.getField f :=
  changed_user_merge_fields mergeWitnessSource mergeWitnessTarget mergeWitnessConfig
    "w" (User.mk "w" "S" "TT" "TT" [] [] false) (by decide) (by decide)

/-! ### Claim C1: group-scope exclusion -/

theorem filterSourceGroups_of_nonempty {cfg : ModelDifferenceConfig}
    (hne : cfg.groups_patterns ≠ []) (users : List (String × User)) :
    filterSourceGroups cfg users =
      users.map fun kv => (kv.1, { kv.2 with groups := listGroupMatches kv.2 cfg }) := by
  have hie : cfg.groups_patterns.isEmpty = false := by
    cases h : cfg.groups_patterns with
    | nil => exact absurd h hne
    | cons a t => rfl
  simp [filterSourceGroups, hie]

theorem listGroupMatches_append_unmatched (u : User) (cfg : ModelDifferenceConfig)
    (g : Group) (hg : ∀ p ∈ cfg.groups_patterns, p g.name = false) :
    listGroupMatches { u with groups := u.groups ++ [g] } cfg = listGroupMatches u cfg := by
  unfold listGroupMatches
  have hgone : cfg.groups_patterns.any (fun p => p g.name) = false := by
    rw [List.any_eq_false]
    intro p hp
    simp [hg p hp]
  simp [List.filter_append, hgone]

theorem getField_groups_eq (u : User) : u.getField "groups" = some (.groupList u.groups) := by
  simp [User.getField]

/-- Source collection of the C1 example: `alice` with only group `proj1`. -/
def aliceSource : List (String × User) :=
  [("alice", User.make "alice" "" "" "" [] [⟨"proj1", "", []⟩] false)]

/-- Target collection of the C1 example: `alice` with only group `proj2`. -/
def aliceTarget : List (String × User) :=
  [("alice", User.make "alice" "" "" "" [] [⟨"proj2", "", []⟩] false)]

/-- Config of the C1 example: compare `username` and `groups`, with the
single pattern `^division.*`, which matches neither group. -/
def divisionScopeConfig : ModelDifferenceConfig :=
  ⟨["username", "groups"], [divisionPattern], groupSupportedFields⟩

/-- Claim C1, counterexample: on the claim's own example — source `alice`
with only `proj1`, target `alice` with only `proj2`, patterns
`["^division.*"]` matching neither — the claim asserts `alice` is
unchanged; the code filters only the source's groups, so the target's
out-of-scope `proj2` still participates and `alice` is classified changed. -/
theorem out_of_scope_target_group_counterexample :
    (ModelDifference.calculate aliceSource aliceTarget
        divisionScopeConfig).2.unchanged_users = [] ∧
    (ModelDifference.calculate aliceSource aliceTarget
        divisionScopeConfig).2.changed_users.map Prod.fst = ["alice"] := by
  decide

/-- Claim C1 (amended): with a non-empty pattern list, a group matching no
configured pattern is filtered out of the source records, so its presence in
the source never affects any part of the diff result, and — when `groups`
is compared — it never appears in a merged record's `groups`; a
non-matching group on the target record, however, is not filtered and can
cause the user to be classified changed (as in the example, where `alice`
is changed). -/
theorem out_of_scope_groups_source_only (src tgt : List (String × User))
    (cfg : ModelDifferenceConfig) (g : Group)
    (_hfields : ∀ f ∈ cfg.fields, f ∈ userSupportedFields)
    (hne : cfg.groups_patterns ≠ [])
    (hg : ∀ p ∈ cfg.groups_patterns, p g.name = false) :
    (ModelDifference.calculate
        (src.map fun kv => (kv.1, { kv.2 with groups := kv.2.groups ++ [g] })) tgt cfg =
      ModelDifference.calculate src tgt cfg) ∧
    ("groups" ∈ cfg.fields →
      ∀ k m, (k, m) ∈ (ModelDifference.calculate src tgt cfg).2.changed_users →
        ∀ h ∈ m.groups, ∃ p ∈ cfg.groups_patterns, p h.name = true) := by
  constructor
  · have hsrc : filterSourceGroups cfg
        (src.map fun kv => (kv.1, { kv.2 with groups := kv.2.groups ++ [g] })) =
        filterSourceGroups cfg src := by
      rw [filterSourceGroups_of_nonempty hne, filterSourceGroups_of_nonempty hne,
        List.map_map]
      apply List.map_congr_left
      intro kv _
      simp only [Function.comp_apply]
      rw [listGroupMatches_append_unmatched kv.2 cfg g hg]
    unfold ModelDifference.calculate
    rw [hsrc]
  · intro hgf k m hm h hmem
    obtain ⟨su, hsu, tu, hlk, hd, hmm⟩ := mem_changed_users.mp hm
    have hmg : m.getField "groups" = su.getField "groups" := by
      rw [hmm, mergeUsers_getField, if_pos hgf]
    rw [getField_groups_eq, getField_groups_eq, Option.some_inj] at hmg
    have hgroups : m.groups = su.groups := by
      injection hmg
    rw [filterSourceGroups_of_nonempty hne] at hsu
    obtain ⟨kv0, hkv0, hkve⟩ := List.mem_map.mp hsu
    have hsu_groups : su.groups = listGroupMatches kv0.2 cfg := by
      have := congrArg Prod.snd hkve
      simp at this
      rw [← this]
    rw [hgroups, hsu_groups] at hmem
    unfold listGroupMatches at hmem
    have := List.of_mem_filter hmem
    rw [List.any_eq_true] at this
    obtain ⟨p, hp, hpe⟩ := this
    exact ⟨p, hp, hpe⟩

/-- An out-of-scope group used by the C1 witness. -/
def staffGroup : Group := ⟨"staff", "", []⟩

/-- Witness for the amended C1 at the example's concrete input. -/
theorem out_of_scope_groups_source_only_witness :
    (ModelDifference.calculate
        (aliceSource.map fun kv =>
          (kv.1, { kv.2 with groups := kv.2.groups ++ [staffGroup] }))
        aliceTarget divisionScopeConfig =
      ModelDifference.calculate aliceSource aliceTarget divisionScopeConfig) ∧
    ("groups" ∈ divisionScopeConfig.fields →
      ∀ k m, (k, m) ∈ (ModelDifference.calculate aliceSource aliceTarget
          divisionScopeConfig).2.changed_users →
        ∀ h ∈ m.groups, ∃ p ∈ divisionScopeConfig.groups_patterns, p h.name = true) :=
  out_of_scope_groups_source_only aliceSource aliceTarget divisionScopeConfig staffGroup
    (by decide) (List.cons_ne_nil divisionPattern []) (by decide)

/-! ### Claim C2: when group filtering runs -/

/-- Config of the C2 counterexample: `groups` is not among the compared
fields, yet the pattern list is non-empty. -/
def usernameOnlyPatternConfig : ModelDifferenceConfig :=
  ⟨["username"], [divisionPattern], groupSupportedFields⟩

/-- Source collection of the C2 counterexample. -/
def projUserSource : List (String × User) :=
  [("u", User.make "u" "" "" "" [] [⟨"proj1", "", []⟩] false)]

/-- Target collection of the C2 counterexample. -/
def projUserTarget : List (String × User) :=
  [("u", User.make "u" "" "" "" [] [⟨"proj1", "", []⟩] false)]

/-- Claim C2, counterexample: the claim asserts the groups replacement runs
if and only if both `"groups"` is among the compared fields and the pattern
list is non-empty; the code tests only the pattern list, so with
`fields = ["username"]` and one (unmatched) pattern the source user's groups
are still replaced by the (empty) matched subset. -/
theorem replacement_without_groups_field_counterexample :
    ((ModelDifference.calculate projUserSource projUserTarget
        usernameOnlyPatternConfig).1.1.map fun kv => kv.2.groups) = [[]] ∧
    (projUserSource.map fun kv => kv.2.groups) = [[⟨"proj1", "", []⟩]] ∧
    "groups" ∉ usernameOnlyPatternConfig.fields := by
  decide

theorem from_dict_no_groups_field_no_patterns
    (compile : String → Except String Pattern) (d : RawConfig)
    (cfg : ModelDifferenceConfig)
    (hok : ModelDifferenceConfig.from_dict compile d = .ok cfg)
    (hng : "groups" ∉ d.fields) : cfg.groups_patterns = [] := by
  have hcontains : d.fields.contains "groups" = false := by
    simpa using hng
  cases hfind : d.fields.find? (fun f => !(userSupportedFields.contains f)) with
  | some f0 =>
    simp only [ModelDifferenceConfig.from_dict, hfind] at hok
    exact absurd hok (by simp)
  | none =>
    cases hgf : d.group_fields with
    | none =>
      simp only [ModelDifferenceConfig.from_dict, hfind, hgf, hcontains,
        Bool.false_eq_true, if_false, compilePatterns, Except.ok.injEq] at hok
      rw [← hok]
    | some gl =>
      cases hbad : gl.find? (fun f => !(groupSupportedFields.contains f)) with
      | some f0 =>
        simp only [ModelDifferenceConfig.from_dict, hfind, hgf, hbad] at hok
        exact absurd hok (by simp)
      | none =>
        simp only [ModelDifferenceConfig.from_dict, hfind, hgf, hbad, hcontains,
          Bool.false_eq_true, if_false, compilePatterns] at hok
        by_cases hemp : gl.isEmpty
        · simp only [hemp, if_true, Except.ok.injEq] at hok
          rw [← hok]
        · simp only [hemp, Bool.false_eq_true, if_false, Except.ok.injEq] at hok
          rw [← hok]

/-- Claim C2 (amended): the replacement of each source user's groups by the
pattern-matched subset is performed if and only if `config.groups_patterns`
is non-empty, regardless of whether `"groups"` is among the compared fields;
when the pattern list is empty the source users enter comparison and merge
unfiltered.  (For configs built by `from_dict` a non-empty pattern list does
imply `"groups"` is among the fields, so the claim's biconditional holds on
that subset.) -/
theorem replacement_iff_patterns_nonempty (src tgt : List (String × User))
    (cfg : ModelDifferenceConfig) :
    ((ModelDifference.calculate src tgt cfg).1.1 =
      if cfg.groups_patterns.isEmpty then src
      else src.map fun kv => (kv.1, { kv.2 with groups := listGroupMatches kv.2 cfg })) ∧
    ((ModelDifference.calculate src tgt cfg).2.source_users =
      (ModelDifference.calculate src tgt cfg).1.1) ∧
    (cfg.groups_patterns = [] →
      (ModelDifference.calculate src tgt cfg).1.1 = src ∧
      (ModelDifference.calculate src tgt cfg).2 = calcPartition src tgt cfg) ∧
    (∀ (compile : String → Except String Pattern) (d : RawConfig)
        (cfg2 : ModelDifferenceConfig),
      ModelDifferenceConfig.from_dict compile d = .ok cfg2 →
      cfg2.groups_patterns ≠ [] → "groups" ∈ d.fields) := by
  refine ⟨rfl, rfl, fun h => ⟨?_, ?_⟩, fun compile0 d cfg2 hok hne2 => ?_⟩
  · simp [ModelDifference.calculate, filterSourceGroups, h]
  · simp [ModelDifference.calculate, filterSourceGroups, h]
  · by_contra hng
    exact hne2 (from_dict_no_groups_field_no_patterns compile0 d cfg2 hok hng)

/-! ### Claim C10: in-place mutation of the caller's source dict -/

/-- Claim C10: when the pattern list is non-empty, the call mutates the
caller's source mapping in place — afterwards every user's groups are the
pattern-matched subset — the result's `source_users` is that same mutated
mapping, and the target mapping is left untouched. -/
theorem calculate_mutates_source_in_place (src tgt : List (String × User))
    (cfg : ModelDifferenceConfig) (hne : cfg.groups_patterns ≠ []) :
    ((ModelDifference.calculate src tgt cfg).1.1 =
      src.map fun kv => (kv.1, { kv.2 with groups := listGroupMatches kv.2 cfg })) ∧
    ((ModelDifference.calculate src tgt cfg).2.source_users =
      (ModelDifference.calculate src tgt cfg).1.1) ∧
    ((ModelDifference.calculate src tgt cfg).1.2 = tgt) ∧
    ((ModelDifference.calculate src tgt cfg).2.target_users = tgt) :=
  ⟨filterSourceGroups_of_nonempty hne src, rfl, rfl, rfl⟩

/-- Source collection of the C10 witness: one user with an out-of-scope
group, so the mutation is visible. -/
def frameSource : List (String × User) :=
  [("m", User.make "m" "" "" "" [] [⟨"ops", "", []⟩] false)]

/-- Target collection of the C10 witness. -/
def frameTarget : List (String × User) := []

/-- Config of the C10 witness: non-empty pattern list. -/
def frameConfig : ModelDifferenceConfig :=
  ⟨["username"], [divisionPattern], groupSupportedFields⟩

/-- Witness for C10: at the concrete input the frame conditions hold and the
post-call source mapping differs from the caller's original one. -/
theorem calculate_mutates_source_in_place_witness :
    (((ModelDifference.calculate frameSource frameTarget frameConfig).1.1 =
        frameSource.map fun kv =>
          (kv.1, { kv.2 with groups := listGroupMatches kv.2 frameConfig })) ∧
      ((ModelDifference.calculate frameSource frameTarget frameConfig).2.source_users =
        (ModelDifference.calculate frameSource frameTarget frameConfig).1.1) ∧
      ((ModelDifference.calculate frameSource frameTarget frameConfig).1.2 =
        frameTarget) ∧
      ((ModelDifference.calculate frameSource frameTarget frameConfig).2.target_users =
        frameTarget)) ∧
    (ModelDifference.calculate frameSource frameTarget frameConfig).1.1 ≠ frameSource :=
  ⟨calculate_mutates_source_in_place frameSource frameTarget frameConfig
      (List.cons_ne_nil divisionPattern []),
    by decide⟩

/-! ### Claim C8: diffing a collection against itself -/

theorem lookup_eq_some_of_nodup {α β : Type} [BEq α] [LawfulBEq α]
    {l : List (α × β)} (h : (l.map Prod.fst).Nodup) {k : α} {v : β}
    (hm : (k, v) ∈ l) : l.lookup k = some v := by
  induction l with
  | nil => cases hm
  | cons hd tl ih =>
    obtain ⟨a, b⟩ := hd
    simp only [List.map_cons, List.nodup_cons] at h
    rcases List.mem_cons.mp hm with heq | htl
    · cases heq
      simp [List.lookup]
    · have hk : k ≠ a := by
        intro hka
        subst hka
        exact h.1 (List.mem_map.mpr ⟨(k, v), htl, rfl⟩)
      have hbeq : (k == a) = false := beq_eq_false_iff_ne.mpr hk
      simp [List.lookup, hbeq]
      exact ih h.2 htl

theorem lookup_isSome_of_mem {α β : Type} [BEq α] [LawfulBEq α]
    {l : List (α × β)} {k : α} {v : β} (hm : (k, v) ∈ l) :
    (l.lookup k).isSome = true := by
  induction l with
  | nil => cases hm
  | cons hd tl ih =>
    obtain ⟨a, b⟩ := hd
    by_cases hbeq : k == a
    · simp [List.lookup, hbeq]
    · have hstep : List.lookup k ((a, b) :: tl) = List.lookup k tl := by
        simp [List.lookup, hbeq]
      rw [hstep]
      rcases List.mem_cons.mp hm with heq | htl
      · cases heq
        simp at hbeq
      · exact ih htl

theorem filterMap_eq_self_of_some {α : Type} {l : List α} {f : α → Option α}
    (h : ∀ x ∈ l, f x = some x) : l.filterMap f = l := by
  induction l with
  | nil => rfl
  | cons a t ih =>
    rw [List.filterMap_cons, h a (List.mem_cons_self a t),
      ih (fun x hx => h x (List.mem_cons_of_mem a hx))]

theorem groupsDiffer_self (gs : List Group) (cfg : ModelDifferenceConfig)
    (hnd : (gs.map Group.name).Nodup) : groupsDiffer gs gs cfg = false := by
  unfold groupsDiffer
  rw [if_neg (by simp)]
  rw [List.any_eq_false]
  intro sg hsg
  have hlk : ((gs.map fun g => (g.name, g)).reverse).lookup sg.name = some sg := by
    apply lookup_eq_some_of_nodup
    · rw [List.map_reverse, List.map_map]
      apply List.nodup_reverse.mpr
      have : (Prod.fst ∘ fun g : Group => (g.name, g)) = Group.name := by
        funext g
        rfl
      rw [this]
      exact hnd
    · exact List.mem_reverse.mpr (List.mem_map.mpr ⟨sg, hsg, rfl⟩)
  rw [hlk]
  simp only [Bool.not_eq_true]
  rw [List.any_eq_false]
  intro f hf
  cases hget : sg.getField f <;> simp [valuesDiffer_self, hget]

theorem usersDiffer_self (u : User) (cfg : ModelDifferenceConfig)
    (hnd : (u.groups.map Group.name).Nodup) : usersDiffer u u cfg = false := by
  unfold usersDiffer
  rw [List.any_eq_false]
  intro field hfield
  by_cases hg : field = "groups"
  · rw [if_pos hg]
    simp [groupsDiffer_self u.groups cfg hnd]
  · rw [if_neg hg]
    cases hget : u.getField field <;> simp [valuesDiffer_self, hget]

theorem filterSourceGroups_keys (cfg : ModelDifferenceConfig)
    (users : List (String × User)) :
    (filterSourceGroups cfg users).map Prod.fst = users.map Prod.fst := by
  unfold filterSourceGroups
  by_cases h : cfg.groups_patterns.isEmpty <;> simp [h]

/-- Claim C8 (amended): diffing a collection against itself (the same dict
as source and target, so the in-place filtering is seen through both views)
yields empty `added`, `removed` and `changed` partitions and an `unchanged`
partition carrying every key, provided no user carries two groups with the
same name: with duplicated group names the last-wins name index of
`_groups_differ` can make a user differ from itself. -/
theorem self_diff_identity (S : List (String × User)) (cfg : ModelDifferenceConfig)
    (_hfields : ∀ f ∈ cfg.fields, f ∈ userSupportedFields)
    (_hgfields : ∀ f ∈ cfg.group_fields, f ∈ groupSupportedFields)
    (hkeys : (S.map Prod.fst).Nodup)
    (hgroups : ∀ kv ∈ S, ((kv.2.groups.map Group.name).Nodup)) :
    (ModelDifference.calculateAliased S cfg).2.added_users = [] ∧
    (ModelDifference.calculateAliased S cfg).2.removed_users = [] ∧
    (ModelDifference.calculateAliased S cfg).2.changed_users = [] ∧
    (ModelDifference.calculateAliased S cfg).2.unchanged_users.map Prod.fst =
      S.map Prod.fst := by
  have hkeys2 : ((filterSourceGroups cfg S).map Prod.fst).Nodup := by
    rw [filterSourceGroups_keys]
    exact hkeys
  have hgroups2 : ∀ kv ∈ filterSourceGroups cfg S,
      ((kv.2.groups.map Group.name).Nodup) := by
    intro kv hkv
    unfold filterSourceGroups at hkv
    by_cases h : cfg.groups_patterns.isEmpty
    · rw [if_pos h] at hkv
      exact hgroups kv hkv
    · rw [if_neg h] at hkv
      obtain ⟨kv0, hkv0, hkve⟩ := List.mem_map.mp hkv
      cases hkve
      exact List.Nodup.sublist
        ((List.filter_sublist kv0.2.groups).map Group.name) (hgroups kv0 hkv0)
  have key : ∀ kv ∈ filterSourceGroups cfg S,
      (filterSourceGroups cfg S).lookup kv.1 = some kv.2 := by
    intro kv hkv
    exact lookup_eq_some_of_nodup hkeys2 hkv
  have hdiff : ∀ kv ∈ filterSourceGroups cfg S,
      usersDiffer kv.2 kv.2 cfg = false := by
    intro kv hkv
    exact usersDiffer_self kv.2 cfg (hgroups2 kv hkv)
  simp only [ModelDifference.calculateAliased, calcPartition]
  refine ⟨?_, ?_, ?_, ?_⟩
  · rw [List.filter_eq_nil_iff]
    intro kv hkv
    rw [key kv hkv]
    simp
  · rw [List.filter_eq_nil_iff]
    intro kv hkv
    rw [key kv hkv]
    simp
  · rw [List.filterMap_eq_nil_iff]
    intro kv hkv
    rw [key kv hkv]
    simp [hdiff kv hkv]
  · rw [filterMap_eq_self_of_some, filterSourceGroups_keys]
    intro kv hkv
    rw [key kv hkv]
    simp [hdiff kv hkv]

/-- A collection whose single user carries two groups with the same name
but different descriptions. -/
def dupGroupCollection : List (String × User) :=
  [("u", User.make "u" "" "" "" [] [⟨"a", "x", []⟩, ⟨"a", "y", []⟩] false)]

/-- A valid config comparing `groups` with the default catch-all pattern
(what `from_dict` builds for `{"fields": ["groups"]}`). -/
def dupGroupConfig : ModelDifferenceConfig :=
  ⟨["groups"], [dotStarPattern], groupSupportedFields⟩

/-- Claim C8, counterexample: diffing this collection against itself (same
dict as source and target) classifies its user as changed, not unchanged —
`_groups_differ` indexes the target's groups by name with a last-wins dict,
so the first `a` group is compared against the second and their
descriptions differ. -/
theorem self_diff_counterexample :
    (ModelDifference.calculateAliased dupGroupCollection
        dupGroupConfig).2.changed_users.map Prod.fst = ["u"] ∧
    (ModelDifference.calculateAliased dupGroupCollection
        dupGroupConfig).2.unchanged_users = [] := by
  decide

/-- Collection for the C8 witness. -/
def selfDiffCollection : List (String × User) :=
  [("u", User.make "u" "" "" "" [] [⟨"a", "", []⟩] false),
   ("v", User.make "v" "" "" "" [] [] true)]

/-- Config for the C8 witness. -/
def selfDiffConfig : ModelDifferenceConfig :=
  ⟨["username", "groups", "locked"], [dotStarPattern], groupSupportedFields⟩

/-- Witness for the amended C8 at a concrete collection. -/
theorem self_diff_identity_witness :
    (ModelDifference.calculateAliased selfDiffCollection
        selfDiffConfig).2.added_users = [] ∧
    (ModelDifference.calculateAliased selfDiffCollection
        selfDiffConfig).2.removed_users = [] ∧
    (ModelDifference.calculateAliased selfDiffCollection
        selfDiffConfig).2.changed_users = [] ∧
    (ModelDifference.calculateAliased selfDiffCollection
        selfDiffConfig).2.unchanged_users.map Prod.fst =
      selfDiffCollection.map Prod.fst :=
  self_diff_identity selfDiffCollection selfDiffConfig (by decide) (by decide)
    (by decide) (by decide)

/-! ### Claim C9: configuration validation -/

/-- Raw config whose `fields` and `group_fields` both contain unsupported
entries. -/
def doubleInvalidRaw : RawConfig := ⟨["bogus"], none, some ["alsobogus"]⟩

/-- Claim C9, counterexample: the claim asserts `InvalidGroupField` is
raised whenever the supplied `group_fields` has an unsupported entry; here
`group_fields = ["alsobogus"]` is invalid, yet the `fields` loop runs first
and the construction raises `InvalidUserField` instead. -/
theorem invalid_group_field_precedence_counterexample :
    ModelDifferenceConfig.from_dict stubCompile doubleInvalidRaw =
      .error (.invalidUserField "bogus") ∧
    ("alsobogus" ∈ ["alsobogus"] ∧ "alsobogus" ∉ groupSupportedFields) ∧
    (∀ f, ModelDifferenceConfig.from_dict stubCompile doubleInvalidRaw ≠
      .error (.invalidGroupField f)) := by
  refine ⟨rfl, by decide, ?_⟩
  intro f h
  rw [show ModelDifferenceConfig.from_dict stubCompile doubleInvalidRaw =
    .error (.invalidUserField "bogus") from rfl] at h
  simp at h

/-- Claim C9 (amended): when every entry of `fields` is a supported User
field (the `fields` check runs first and wins otherwise), a supplied
`group_fields` containing an unsupported entry makes construction fail with
`InvalidGroupField` naming an offending entry; an unsupported entry in
`fields` makes it fail with `InvalidUserField` naming an offending entry;
and a successful construction implies every entry of `fields` was checked
against User's supported fields, with `group_fields` defaulting to the full
set of Group fields when not supplied.  Construction is a pure function. -/
theorem from_dict_validation (compile : String → Except String Pattern)
    (d : RawConfig) :
    ((∀ f ∈ d.fields, f ∈ userSupportedFields) →
      ∀ gl, d.group_fields = some gl →
        ∀ f1 ∈ gl, f1 ∉ groupSupportedFields →
          ∃ f0, f0 ∈ gl ∧ f0 ∉ groupSupportedFields ∧
            ModelDifferenceConfig.from_dict compile d =
              .error (.invalidGroupField f0)) ∧
    ((∃ f ∈ d.fields, f ∉ userSupportedFields) →
      ∃ f0, f0 ∈ d.fields ∧ f0 ∉ userSupportedFields ∧
        ModelDifferenceConfig.from_dict compile d =
          .error (.invalidUserField f0)) ∧
    (∀ cfg, ModelDifferenceConfig.from_dict compile d = .ok cfg →
      (∀ f ∈ d.fields, f ∈ userSupportedFields) ∧
      (d.group_fields = none → cfg.group_fields = groupSupportedFields)) := by
  refine ⟨?_, ?_, ?_⟩
  · intro hfields gl hgl f1 hf1mem hf1bad
    have hnone : d.fields.find? (fun f => !(userSupportedFields.contains f)) = none :=
      List.find?_eq_none.mpr (fun x hx => by simp [hfields x hx])
    have hsome : (gl.find? (fun f => !(groupSupportedFields.contains f))).isSome :=
      List.find?_isSome.mpr ⟨f1, hf1mem, by simp [hf1bad]⟩
    obtain ⟨f0, hf0⟩ := Option.isSome_iff_exists.mp hsome
    refine ⟨f0, List.mem_of_find?_eq_some hf0, ?_, ?_⟩
    · have := List.find?_some hf0
      simpa using this
    · simp only [ModelDifferenceConfig.from_dict, hnone, hgl, hf0]
  · intro hbad
    obtain ⟨f1, hf1mem, hf1bad⟩ := hbad
    have hsome : (d.fields.find? (fun f => !(userSupportedFields.contains f))).isSome :=
      List.find?_isSome.mpr ⟨f1, hf1mem, by simp [hf1bad]⟩
    obtain ⟨f0, hf0⟩ := Option.isSome_iff_exists.mp hsome
    refine ⟨f0, List.mem_of_find?_eq_some hf0, ?_, ?_⟩
    · have := List.find?_some hf0
      simpa using this
    · simp only [ModelDifferenceConfig.from_dict, hf0]
  · intro cfg hok
    constructor
    · intro f hf
      by_contra hbadf
      have hsome : (d.fields.find? (fun f => !(userSupportedFields.contains f))).isSome :=
        List.find?_isSome.mpr ⟨f, hf, by simp [hbadf]⟩
      obtain ⟨f0, hf0⟩ := Option.isSome_iff_exists.mp hsome
      simp only [ModelDifferenceConfig.from_dict, hf0] at hok
      exact absurd hok (by simp)
    · intro hgf
      cases hfind : d.fields.find? (fun f => !(userSupportedFields.contains f)) with
      | some f0 =>
        simp only [ModelDifferenceConfig.from_dict, hfind] at hok
        exact absurd hok (by simp)
      | none =>
        simp only [ModelDifferenceConfig.from_dict, hfind, hgf] at hok
        cases hcomp : compilePatterns compile
            (if d.fields.contains "groups" then d.groups_patterns.getD [".*"] else []) with
        | error e =>
          rw [hcomp] at hok
          simp at hok
        | ok pats =>
          rw [hcomp] at hok
          simp only [Except.ok.injEq] at hok
          rw [← hok]

/-! ### Claim C7: stage orchestration -/

/-- Whether a stage outcome is an exception other than
`NotImplementedError`. -/
def StageResult.isRaised : StageResult → Bool
  | .raised _ => true
  | _ => false

theorem invokedStages_cons_invoked (s : String) (d : ModelDifference)
    (l : List Event) : invokedStages (Event.invoked s d :: l) = s :: invokedStages l := by
  simp [invokedStages]

theorem invokedStages_cons_warning (s c : String) (l : List Event) :
    invokedStages (Event.notImplementedWarning s c :: l) = invokedStages l := by
  simp [invokedStages]

theorem notImplWarnings_cons_invoked (s : String) (d : ModelDifference)
    (l : List Event) : notImplWarnings (Event.invoked s d :: l) = notImplWarnings l := by
  simp [notImplWarnings]

theorem notImplWarnings_cons_warning (s c : String) (l : List Event) :
    notImplWarnings (Event.notImplementedWarning s c :: l) =
      (s, c) :: notImplWarnings l := by
  simp [notImplWarnings]

theorem runStagesFrom_invoked_sublist (t : Target) (d : ModelDifference) :
    ∀ l : List String, List.Sublist (invokedStages (runStagesFrom t d l).1) l := by
  intro l
  induction l with
  | nil => simp [runStagesFrom, invokedStages]
  | cons s rest ih =>
    unfold runStagesFrom
    by_cases hs : t.stages.contains s
    · rw [if_pos hs]
      cases t.run s d with
      | ok =>
        simp only [invokedStages_cons_invoked]
        exact ih.cons₂ s
      | notImplemented =>
        simp only [invokedStages_cons_invoked, invokedStages_cons_warning]
        exact ih.cons₂ s
      | raised msg =>
        simp only [invokedStages_cons_invoked]
        have : invokedStages ([] : List Event) = [] := rfl
        simp only [invokedStages, List.filterMap_nil]
        exact (List.nil_sublist rest).cons₂ s
    · rw [if_neg hs]
      exact ih.cons s

theorem runStagesFrom_invoked_enabled (t : Target) (d : ModelDifference) :
    ∀ l : List String, ∀ s ∈ invokedStages (runStagesFrom t d l).1, s ∈ t.stages := by
  intro l
  induction l with
  | nil => simp [runStagesFrom, invokedStages]
  | cons s rest ih =>
    unfold runStagesFrom
    by_cases hs : t.stages.contains s
    · have hs2 : s ∈ t.stages := by simpa using hs
      rw [if_pos hs]
      cases t.run s d with
      | ok =>
        simp only [invokedStages_cons_invoked]
        intro x hx
        rcases List.mem_cons.mp hx with h | h
        · exact h ▸ hs2
        · exact ih x h
      | notImplemented =>
        simp only [invokedStages_cons_invoked, invokedStages_cons_warning]
        intro x hx
        rcases List.mem_cons.mp hx with h | h
        · exact h ▸ hs2
        · exact ih x h
      | raised msg =>
        simp only [invokedStages, List.filterMap_cons, List.filterMap_nil]
        intro x hx
        simp at hx
        exact hx ▸ hs2
    · rw [if_neg hs]
      exact ih

theorem runStagesFrom_same_difference (t : Target) (d : ModelDifference) :
    ∀ l : List String, ∀ s dd,
      Event.invoked s dd ∈ (runStagesFrom t d l).1 → dd = d := by
  intro l
  induction l with
  | nil => simp [runStagesFrom]
  | cons s rest ih =>
    unfold runStagesFrom
    by_cases hs : t.stages.contains s
    · rw [if_pos hs]
      cases t.run s d with
      | ok =>
        intro x dd hx
        rcases List.mem_cons.mp hx with h | h
        · simp only [Event.invoked.injEq] at h
          exact h.2
        · exact ih x dd h
      | notImplemented =>
        intro x dd hx
        rcases List.mem_cons.mp hx with h | h
        · simp only [Event.invoked.injEq] at h
          exact h.2
        · rcases List.mem_cons.mp h with h2 | h2
          · simp at h2
          · exact ih x dd h2
      | raised msg =>
        intro x dd hx
        rcases List.mem_cons.mp hx with h | h
        · simp only [Event.invoked.injEq] at h
          exact h.2
        · simp at h
    · rw [if_neg hs]
      exact ih

theorem invokedStages_cons_diff (d : ModelDifference) (l : List Event) :
    invokedStages (Event.diffCalculated d :: l) = invokedStages l := by
  simp [invokedStages]

theorem notImplWarnings_cons_diff (d : ModelDifference) (l : List Event) :
    notImplWarnings (Event.diffCalculated d :: l) = notImplWarnings l := by
  simp [notImplWarnings]

theorem runStagesFrom_no_raise (t : Target) (d : ModelDifference) :
    ∀ l : List String,
      (∀ s ∈ l, s ∈ t.stages → (t.run s d).isRaised = false) →
      (runStagesFrom t d l).2 = none ∧
      invokedStages (runStagesFrom t d l).1 =
        l.filter (fun s => decide (s ∈ t.stages)) ∧
      notImplWarnings (runStagesFrom t d l).1 =
        (l.filter (fun s => decide (s ∈ t.stages) &&
          (t.run s d == StageResult.notImplemented))).map
          (fun s => (s, t.className)) := by
  intro l
  induction l with
  | nil => exact fun _ => ⟨rfl, rfl, rfl⟩
  | cons s rest ih =>
    intro h
    have hrest := ih (fun u hu hus => h u (List.mem_cons_of_mem s hu) hus)
    unfold runStagesFrom
    by_cases hs : t.stages.contains s
    · have hs2 : s ∈ t.stages := by simpa using hs
      rw [if_pos hs]
      cases hr : t.run s d with
      | ok =>
        refine ⟨hrest.1, ?_, ?_⟩
        · rw [invokedStages_cons_invoked, hrest.2.1]
          simp [List.filter_cons, hs2]
        · rw [notImplWarnings_cons_invoked, hrest.2.2]
          simp [List.filter_cons, hs2, hr]
      | notImplemented =>
        refine ⟨hrest.1, ?_, ?_⟩
        · rw [invokedStages_cons_invoked, invokedStages_cons_warning, hrest.2.1]
          simp [List.filter_cons, hs2]
        · rw [notImplWarnings_cons_invoked, notImplWarnings_cons_warning, hrest.2.2]
          simp [List.filter_cons, hs2, hr]
      | raised msg =>
        have := h s (List.mem_cons_self s rest) hs2
        rw [hr] at this
        simp [StageResult.isRaised] at this
    · have hs2 : s ∉ t.stages := by simpa using hs
      rw [if_neg hs]
      refine ⟨hrest.1, ?_, ?_⟩
      · rw [hrest.2.1]
        simp [List.filter_cons, hs2]
      · rw [hrest.2.2]
        simp [List.filter_cons, hs2]

theorem runStagesFrom_raise (t : Target) (d : ModelDifference) :
    ∀ (l₁ : List String) (s : String) (l₂ : List String) (msg : String),
      (∀ u ∈ l₁, u ∈ t.stages → (t.run u d).isRaised = false) →
      s ∈ t.stages → t.run s d = .raised msg →
      (runStagesFrom t d (l₁ ++ s :: l₂)).2 = some msg := by
  intro l₁
  induction l₁ with
  | nil =>
    intro s l₂ msg h hs hr
    rw [List.nil_append]
    unfold runStagesFrom
    rw [if_pos (by simpa using hs), hr]
  | cons u rest ih =>
    intro s l₂ msg h hs hr
    rw [List.cons_append]
    unfold runStagesFrom
    by_cases hu : t.stages.contains u
    · rw [if_pos hu]
      have hu2 : u ∈ t.stages := by simpa using hu
      have hne2 : (t.run u d).isRaised = false :=
        h u (List.mem_cons_self u rest) hu2
      cases hru : t.run u d with
      | ok =>
        exact ih s l₂ msg (fun x hx hxs => h x (List.mem_cons_of_mem u hx) hxs) hs hr
      | notImplemented =>
        exact ih s l₂ msg (fun x hx hxs => h x (List.mem_cons_of_mem u hx) hxs) hs hr
      | raised m =>
        rw [hru] at hne2
        simp [StageResult.isRaised] at hne2
    · rw [if_neg hu]
      exact ih s l₂ msg (fun x hx hxs => h x (List.mem_cons_of_mem u hx) hxs) hs hr

/-- Claim C7: with a non-empty configured stage list, `process_stages`
computes the difference once, before any stage runs; it invokes only the
configured stages, in the fixed order create → cleanup → sync, passing each
that single difference; a stage raising `NotImplementedError` produces a
warning naming the stage and the target class and processing continues —
in particular, with no stage raising another exception, the run completes
with no uncaught exception and every configured stage invoked — while any
other exception from a stage propagates uncaught. -/
theorem process_stages_spec (t : Target) (calcDiff : Unit → ModelDifference)
    (hne : t.stages ≠ []) :
    ((process_stages t calcDiff).1.head? =
      some (.diffCalculated (calcDiff ()))) ∧
    List.Sublist (invokedStages (process_stages t calcDiff).1) canonicalStages ∧
    (∀ s ∈ invokedStages (process_stages t calcDiff).1, s ∈ t.stages) ∧
    (∀ s dd, Event.invoked s dd ∈ (process_stages t calcDiff).1 →
      dd = calcDiff ()) ∧
    ((∀ s ∈ canonicalStages, s ∈ t.stages →
        (t.run s (calcDiff ())).isRaised = false) →
      (process_stages t calcDiff).2 = none ∧
      invokedStages (process_stages t calcDiff).1 =
        canonicalStages.filter (fun s => decide (s ∈ t.stages)) ∧
      notImplWarnings (process_stages t calcDiff).1 =
        (canonicalStages.filter (fun s => decide (s ∈ t.stages) &&
          (t.run s (calcDiff ()) == StageResult.notImplemented))).map
          (fun s => (s, t.className))) ∧
    (∀ (l₁ : List String) (s : String) (l₂ : List String) (msg : String),
      canonicalStages = l₁ ++ s :: l₂ →
      (∀ u ∈ l₁, u ∈ t.stages → (t.run u (calcDiff ())).isRaised = false) →
      s ∈ t.stages → t.run s (calcDiff ()) = .raised msg →
      (process_stages t calcDiff).2 = some msg) := by
  have hie : t.stages.isEmpty = false := by
    cases h : t.stages with
    | nil => exact absurd h hne
    | cons a rest => rfl
  have hps1 : (process_stages t calcDiff).1 =
      .diffCalculated (calcDiff ()) ::
        (runStagesFrom t (calcDiff ()) canonicalStages).1 := by
    simp [process_stages, hie]
  have hps2 : (process_stages t calcDiff).2 =
      (runStagesFrom t (calcDiff ()) canonicalStages).2 := by
    simp [process_stages, hie]
  refine ⟨?_, ?_, ?_, ?_, ?_, ?_⟩
  · rw [hps1]
    rfl
  · rw [hps1, invokedStages_cons_diff]
    exact runStagesFrom_invoked_sublist t (calcDiff ()) canonicalStages
  · rw [hps1, invokedStages_cons_diff]
    exact runStagesFrom_invoked_enabled t (calcDiff ()) canonicalStages
  · rw [hps1]
    intro s dd hmem
    rcases List.mem_cons.mp hmem with h | h
    · simp at h
    · exact runStagesFrom_same_difference t (calcDiff ()) canonicalStages s dd h
  · intro h
    have hrun := runStagesFrom_no_raise t (calcDiff ()) canonicalStages h
    rw [hps1, hps2, invokedStages_cons_diff, notImplWarnings_cons_diff]
    exact hrun
  · intro l₁ s l₂ msg hcanon h hs hr
    rw [hps2, hcanon]
    exact runStagesFrom_raise t (calcDiff ()) l₁ s l₂ msg h hs hr

/-- The empty difference, used by the C7 witness's difference thunk. -/
def emptyDifference : ModelDifference := ⟨[], [], [], [], [], []⟩

/-- The C7 witness target: all three stages enabled, only `users_create`
implemented, the other two raising `NotImplementedError`. -/
def stageWitnessTarget : Target :=
  ⟨"DummyTarget", ["users_create", "users_cleanup", "users_sync"],
    fun s _ => if s = "users_create" then .ok else .notImplemented⟩

/-- The C7 witness difference thunk. -/
def stageWitnessDiff : Unit → ModelDifference := fun _ => emptyDifference

/-- Witness for C7: the claim's concrete scenario — a target implementing
only `users_create` with all three stages enabled runs all three stage
calls in order, logs exactly two "not implemented" warnings naming the
stage and the class, and raises nothing. -/
theorem process_stages_spec_witness :
    (process_stages stageWitnessTarget stageWitnessDiff).2 = none ∧
    invokedStages (process_stages stageWitnessTarget stageWitnessDiff).1 =
      ["users_create", "users_cleanup", "users_sync"] ∧
    notImplWarnings (process_stages stageWitnessTarget stageWitnessDiff).1 =
      [("users_cleanup", "DummyTarget"), ("users_sync", "DummyTarget")] := by
  obtain ⟨h1, h2, h3⟩ :=
    (process_stages_spec stageWitnessTarget stageWitnessDiff
      (by decide)).2.2.2.2.1 (by decide)
  refine ⟨h1, ?_, ?_⟩
  · rw [h2]
    decide
  · rw [h3]
    decide

end Lifecycle
